import Mathlib

/-!
Verification of the journalformatter manuscript pipeline
(src/app/components/PublicationFormatter.tsx).

Texts are embedded as `List Char` (JS strings are sequences of UTF-16 code
units; all characters relevant here are plain code points, so `Char` lists
are a faithful carrier).  JS regular-expression global replacement is
embedded as explicit left-to-right scanners.  Each scanner is written with
an explicit fuel argument (fuel = length of the input) so that it is
structurally recursive and kernel-computable; every step consumes at least
one character, so fuel never runs out on the wrapper entry points.

Display-only numeric fields of `JournalFormat` (lineSpacing, margins) are
embedded as the exact decimal strings that the JS template literals render
(e.g. the number 1.5 renders as "1.5", 2.0 renders as "2", 1 renders as
"1"); these fields flow only into the banner text and have no numeric
behaviour in the source.
-/

/-- Characters matched by the JS regex class `\s` (and trimmed by
`String.prototype.trim`): ASCII whitespace, NBSP, the Unicode space
separators, line/paragraph separators and the BOM. -/
def isJsSpace (c : Char) : Bool :=
  c == ' ' || c == '\t' || c == '\n' || c == '\r' || c == '\x0b' || c == '\x0c' ||
  c == ' ' || c == ' ' || (decide (' ' ≤ c) && decide (c ≤ ' ')) ||
  c == ' ' || c == ' ' || c == ' ' || c == ' ' || c == '　' ||
  c == '﻿'

/-- Characters matched by the JS regex class `\w`: `[A-Za-z0-9_]`. -/
def isWordChar (c : Char) : Bool :=
  decide ('A' ≤ c ∧ c ≤ 'Z') || decide ('a' ≤ c ∧ c ≤ 'z') || c.isDigit || c == '_'

/-- All characters of the list are decimal digits (the capture `(\d+)`). -/
def AllDigits (l : List Char) : Prop := ∀ c ∈ l, c.isDigit = true

instance (l : List Char) : Decidable (AllDigits l) := by
  unfold AllDigits; infer_instance

/-- JS `String.prototype.trim`: drop `\s` characters from both ends. -/
def jsTrim (t : List Char) : List Char :=
  ((t.dropWhile isJsSpace).reverse.dropWhile isJsSpace).reverse

/-- JS `toUpperCase` restricted to the ASCII range (all texts and format
names in the claims are ASCII; `Char.toUpper` uppercases exactly ASCII). -/
def jsUpper (l : List Char) : List Char := l.map Char.toUpper

/-- Fueled splitter for `text.split(/\s+/).filter(w => w.length > 0)`:
the maximal runs of non-`\s` characters, in order.  Splitting on runs of
whitespace and discarding empty pieces yields exactly these tokens. -/
def splitWsF : Nat → List Char → List (List Char)
  | 0, _ => []
  | _ + 1, [] => []
  | fuel + 1, c :: rest =>
    if isJsSpace c then splitWsF fuel rest
    else (c :: rest.takeWhile (fun d => !isJsSpace d)) ::
      splitWsF fuel (rest.dropWhile (fun d => !isJsSpace d))

/-- `text.split(/\s+/).filter(w => w.length > 0)`. -/
def splitWs (t : List Char) : List (List Char) := splitWsF t.length t

/-- Does `t` start with `pat` (character-exact)? -/
def listStartsWith : List Char → List Char → Bool
  | [], _ => true
  | _ :: _, [] => false
  | p :: ps, c :: cs => p == c && listStartsWith ps cs

/-- Does `t` contain `pat` as a contiguous substring? -/
def listContains (pat : List Char) : List Char → Bool
  | [] => pat.isEmpty
  | c :: rest => listStartsWith pat (c :: rest) || listContains pat (c :: rest).tail

/-- Case-insensitive pattern strip: if `t` starts with `pat` up to ASCII
case, return the remainder of `t` (the JS `i` flag on a literal pattern). -/
def ciStrip : List Char → List Char → Option (List Char)
  | [], t => some t
  | _ :: _, [] => none
  | p :: ps, c :: cs => if p.toLower == c.toLower then ciStrip ps cs else none

/-- A `\b` word boundary holds after a word character iff the next
character is absent or not a word character. -/
def boundaryOk : List Char → Bool
  | [] => true
  | c :: _ => !isWordChar c

/-- Fueled decimal rendering of a natural number, least-significant digit
extracted by `% 10`.  Models the JS template-literal rendering of an
integral number such as `Date.now()`. -/
def jsNumToStringAux : Nat → Nat → List Char
  | 0, _ => []
  | fuel + 1, n => if n = 0 then [] else jsNumToStringAux fuel (n / 10) ++ [Nat.digitChar (n % 10)]

/-- JS decimal rendering of a natural number (`String(n)` and backtick
interpolation agree on integers). -/
def jsNumToString (n : Nat) : String :=
  ⟨if n = 0 then ['0'] else jsNumToStringAux (n + 1) n⟩

/-- Insert a comma after every three characters of the reversed digit
string: helper for the `en`-locale `toLocaleString` grouping. -/
def groupRev : List Char → List Char
  | a :: b :: c :: d :: rest => a :: b :: c :: ',' :: groupRev (d :: rest)
  | l => l

/-- `Number.prototype.toLocaleString()` for naturals, `en` grouping with
commas (the environment locale assumed by the spec example: 1000 renders
as "1,000"). -/
def jsToLocaleString (n : Nat) : String :=
  ⟨(groupRev (jsNumToString n).data.reverse).reverse⟩

/-- Fueled scanner for one global replacement
`text.replace(/OP(\d+)CL/g, f)` where `OP`, `CL` are single delimiter
characters and `f` builds the replacement from the captured digits.
At each position: if the head is `OP` followed by one or more digits
(greedy) and then `CL`, emit `f digits` and resume after the match,
otherwise emit the head and move one character forward — exactly the JS
left-to-right non-overlapping global-replace discipline. -/
def replDelimF (op cl : Char) (f : List Char → List Char) : Nat → List Char → List Char
  | 0, t => t
  | _ + 1, [] => []
  | fuel + 1, c :: rest =>
    if c = op then
      match rest.dropWhile Char.isDigit, rest.takeWhile Char.isDigit with
      | c2 :: r2, _ :: _ =>
        if c2 = cl then f (rest.takeWhile Char.isDigit) ++ replDelimF op cl f fuel r2
        else c :: replDelimF op cl f fuel rest
      | _, _ => c :: replDelimF op cl f fuel rest
    else c :: replDelimF op cl f fuel rest

/-- One global replacement `replace(/OP(\d+)CL/g, f)`. -/
def replDelim (op cl : Char) (f : List Char → List Char) (t : List Char) : List Char :=
  replDelimF op cl f t.length t

/-- `text.replace(/\[(\d+)\]/g, f)`. -/
def replaceBracketNums (f : List Char → List Char) (t : List Char) : List Char :=
  replDelim '[' ']' f t

/-- `text.replace(/\((\d+)\)/g, g)`. -/
def replaceParenNums (g : List Char → List Char) (t : List Char) : List Char :=
  replDelim '(' ')' g t

/-- Replacement string `($1)` as a function of the captured digits. -/
def parenNumRep (ds : List Char) : List Char := '(' :: (ds ++ [')'])

/-- Replacement string `[$1]`. -/
def bracketNumRep (ds : List Char) : List Char := '[' :: (ds ++ [']'])

/-- Replacement string `^$1^`. -/
def superscriptRep (ds : List Char) : List Char := '^' :: (ds ++ ['^'])

/-- Replacement string `[Author, Year]` (digits ignored). -/
def authorYearBracket (_ds : List Char) : List Char := "[Author, Year]".data

/-- Replacement string `(Author, Year)`. -/
def authorYearParen (_ds : List Char) : List Char := "(Author, Year)".data

/-- Replacement string `[Author Year]`. -/
def chicagoBracket (_ds : List Char) : List Char := "[Author Year]".data

/-- Replacement string `(Author Year)`. -/
def chicagoParen (_ds : List Char) : List Char := "(Author Year)".data

/-- Replacement string `[Author Page]`. -/
def mlaBracket (_ds : List Char) : List Char := "[Author Page]".data

/-- Replacement string `(Author Page)`. -/
def mlaParen (_ds : List Char) : List Char := "(Author Page)".data

/-- Source `formatReferences` (PublicationFormatter.tsx lines 188-238):
for each recognised `referenceStyle` the text undergoes two sequential
global replacements, first on `[n]`, then on `(n)`; unrecognised styles
leave the text unchanged. -/
def formatReferences (text : List Char) (referenceStyle : String) : List Char :=
  if referenceStyle = "Vancouver" then
    replaceParenNums parenNumRep (replaceBracketNums parenNumRep text)
  else if referenceStyle = "APA" then
    replaceParenNums authorYearParen (replaceBracketNums authorYearBracket text)
  else if referenceStyle = "Chicago" then
    replaceParenNums chicagoParen (replaceBracketNums chicagoBracket text)
  else if referenceStyle = "Harvard" then
    replaceParenNums authorYearParen (replaceBracketNums authorYearBracket text)
  else if referenceStyle = "MLA" then
    replaceParenNums mlaParen (replaceBracketNums mlaBracket text)
  else if referenceStyle = "IEEE" then
    replaceParenNums bracketNumRep (replaceBracketNums bracketNumRep text)
  else if referenceStyle = "AMA" then
    replaceParenNums superscriptRep (replaceBracketNums superscriptRep text)
  else if referenceStyle = "CSE" then
    replaceParenNums superscriptRep (replaceBracketNums superscriptRep text)
  else if referenceStyle = "ACS" then
    replaceParenNums superscriptRep (replaceBracketNums superscriptRep text)
  else if referenceStyle = "Nature" then
    replaceParenNums superscriptRep (replaceBracketNums superscriptRep text)
  else if referenceStyle = "Science" then
    replaceParenNums superscriptRep (replaceBracketNums superscriptRep text)
  else text

/-- Spec-side single-pass rewriter (section 4.1 of the spec): scan the
text once, left to right; a bracketed numeral `[n]` becomes `f n` and a
parenthesized numeral `(n)` becomes `g n`.  This is the simultaneous
reading of the reference table, to be compared with the sequential
two-pass source function. -/
def simulRefF (f g : List Char → List Char) : Nat → List Char → List Char
  | 0, t => t
  | _ + 1, [] => []
  | fuel + 1, c :: rest =>
    if c = '[' then
      match rest.dropWhile Char.isDigit, rest.takeWhile Char.isDigit with
      | c2 :: r2, _ :: _ =>
        if c2 = ']' then f (rest.takeWhile Char.isDigit) ++ simulRefF f g fuel r2
        else c :: simulRefF f g fuel rest
      | _, _ => c :: simulRefF f g fuel rest
    else if c = '(' then
      match rest.dropWhile Char.isDigit, rest.takeWhile Char.isDigit with
      | c2 :: r2, _ :: _ =>
        if c2 = ')' then g (rest.takeWhile Char.isDigit) ++ simulRefF f g fuel r2
        else c :: simulRefF f g fuel rest
      | _, _ => c :: simulRefF f g fuel rest
    else c :: simulRefF f g fuel rest

/-- Simultaneous one-pass reference rewrite (spec reading). -/
def simulRef (f g : List Char → List Char) (t : List Char) : List Char :=
  simulRefF f g t.length t

/-- Spec-side reference conversion, written from the table in section 4.1
of the spec: for each enumerated style, every `[n]` and every `(n)` is
rewritten per the table in a single simultaneous pass. -/
def specRefRewrite (style : String) (t : List Char) : List Char :=
  if style = "Vancouver" then simulRef parenNumRep parenNumRep t
  else if style = "APA" ∨ style = "Harvard" then simulRef authorYearBracket authorYearParen t
  else if style = "Chicago" then simulRef chicagoBracket chicagoParen t
  else if style = "MLA" then simulRef mlaBracket mlaParen t
  else if style = "IEEE" then simulRef bracketNumRep bracketNumRep t
  else if style = "AMA" ∨ style = "CSE" ∨ style = "ACS" ∨ style = "Nature" ∨ style = "Science" then
    simulRef superscriptRep superscriptRep t
  else t

/-- The fixed eleven-style enumeration of `referenceStyle`. -/
def refStyles : List String :=
  ["Vancouver", "APA", "Chicago", "Harvard", "MLA", "IEEE", "AMA", "CSE", "ACS", "Nature",
   "Science"]

/-- Fueled scanner for `text.replace(new RegExp("\\b" ++ name ++ "\\b", "gi"), "\n\n" ++ NAME ++ "\n")`:
case-insensitive whole-word occurrences of `name` are replaced by a
standalone upper-cased header line.  The boolean state records whether the
previous character of the original text was a word character (the left
`\b` context); the section names are all-letter words, so after a match
the previous character is a word character. -/
def replaceWordF (name : List Char) : Nat → Bool → List Char → List Char
  | 0, _, t => t
  | _ + 1, _, [] => []
  | fuel + 1, prevWord, c :: rest =>
    match ciStrip name (c :: rest) with
    | some r2 =>
      if !prevWord && boundaryOk r2 then
        ('\n' :: '\n' :: (jsUpper name ++ ['\n'])) ++ replaceWordF name fuel true r2
      else c :: replaceWordF name fuel (isWordChar c) rest
    | none => c :: replaceWordF name fuel (isWordChar c) rest

/-- One `\bname\b` (gi) global replacement by `"\n\n" ++ NAME ++ "\n"`. -/
def replaceWord (name : List Char) (t : List Char) : List Char :=
  replaceWordF name t.length false t

/-- Fueled scanner for
`text.replace(new RegExp("\n\n" ++ TITLE ++ "\n", "gi"), "\n\n" ++ TITLE ++ "\n" ++ "=".repeat(TITLE.length) ++ "\n")`:
an exact `\n\n<title>\n` occurrence (title letters case-insensitive) gains
an `=` underline of the same length. -/
def replaceHdrF (name : List Char) : Nat → List Char → List Char
  | 0, t => t
  | _ + 1, [] => []
  | fuel + 1, c :: rest =>
    if c = '\n' then
      match rest with
      | '\n' :: rest2 =>
        match ciStrip name rest2 with
        | some ('\n' :: r3) =>
          ('\n' :: '\n' :: (name ++ '\n' :: (List.replicate name.length '=' ++ ['\n']))) ++
            replaceHdrF name fuel r3
        | _ => c :: replaceHdrF name fuel rest
      | _ => c :: replaceHdrF name fuel rest
    else c :: replaceHdrF name fuel rest

/-- One `\n\nTITLE\n` (gi) underline replacement. -/
def replaceHdr (name : List Char) (t : List Char) : List Char :=
  replaceHdrF name t.length t

/-- Fueled scanner for `text.replace(/\n{m,}/g, "\n\n")`: a maximal run of
at least `m` newlines collapses to exactly two; shorter runs pass
through. -/
def collapseNlF (m : Nat) : Nat → List Char → List Char
  | 0, t => t
  | _ + 1, [] => []
  | fuel + 1, c :: rest =>
    if c = '\n' then
      let run := rest.takeWhile (fun d => d == '\n')
      let r2 := rest.dropWhile (fun d => d == '\n')
      if m ≤ run.length + 1 then '\n' :: '\n' :: collapseNlF m fuel r2
      else (c :: run) ++ collapseNlF m fuel r2
    else c :: collapseNlF m fuel rest

/-- `text.replace(/\n{m,}/g, "\n\n")`. -/
def collapseNl (m : Nat) (t : List Char) : List Char := collapseNlF m t.length t

/-- The four margin fields, as the decimal strings their template-literal
rendering produces (display-only data). -/
structure JMargins where
  top : String
  bottom : String
  left : String
  right : String
deriving DecidableEq, Repr

/-- The `JournalFormat` record of the source (display-only numerics kept
as their rendered decimal strings, see the file header). -/
structure JournalFormat where
  id : String
  name : String
  description : String
  lineSpacing : String
  wordLimit : Nat
  referenceStyle : String
  fontFamily : String
  fontSize : Nat
  margins : JMargins
deriving DecidableEq, Repr

/-- The five built-in formats (`DEFAULT_JOURNAL_FORMATS`). -/
def DEFAULT_JOURNAL_FORMATS : List JournalFormat :=
  [{ id := "ijdr", name := "International Journal of Dental Research (IJDR)",
     description := "Dental research and clinical studies", lineSpacing := "1.5",
     wordLimit := 5000, referenceStyle := "Vancouver", fontFamily := "Times New Roman",
     fontSize := 12, margins := { top := "1", bottom := "1", left := "1", right := "1" } },
   { id := "jcd", name := "Journal of Clinical Dentistry (JCD)",
     description := "Clinical dental practice and research", lineSpacing := "2",
     wordLimit := 4000, referenceStyle := "APA", fontFamily := "Arial",
     fontSize := 11,
     margins := { top := "1.25", bottom := "1.25", left := "1.25", right := "1.25" } },
   { id := "joe", name := "Journal of Endodontics (JOE)",
     description := "Endodontic research and clinical practice", lineSpacing := "1.5",
     wordLimit := 6000, referenceStyle := "Chicago", fontFamily := "Garamond",
     fontSize := 12, margins := { top := "1", bottom := "1", left := "1.5", right := "1" } },
   { id := "custom_modern", name := "Modern Research Journal",
     description := "Contemporary academic publishing", lineSpacing := "1.15",
     wordLimit := 8000, referenceStyle := "Harvard", fontFamily := "Helvetica",
     fontSize := 11, margins := { top := "1", bottom := "1", left := "1", right := "1" } },
   { id := "custom_classic", name := "Classical Academic Journal",
     description := "Traditional scholarly publication", lineSpacing := "2",
     wordLimit := 3000, referenceStyle := "MLA", fontFamily := "Garamond",
     fontSize := 12,
     margins := { top := "1.5", bottom := "1.5", left := "1.5", right := "1.5" } }]

/-- The `FormattedDocument` result record. -/
structure FormattedDocument where
  content : String
  wordCount : Nat
  format : JournalFormat
  originalFileName : String
deriving DecidableEq, Repr

/-- The eight section keywords of `formatSections` (source order). -/
def sectionNames : List String :=
  ["Abstract", "Introduction", "Methodology", "Methods", "Results", "Discussion", "Conclusion",
   "References"]

/-- The eight upper-cased section titles of `formatTitles` (source order). -/
def sectionTitles : List String :=
  ["ABSTRACT", "INTRODUCTION", "METHODOLOGY", "METHODS", "RESULTS", "DISCUSSION", "CONCLUSION",
   "REFERENCES"]

/-- Source `formatTitles` (lines 276-293).  The source first writes
`"TITLE: " ++ lines[0].toUpperCase()` into a local `lines` array, but that
array is never joined back into `formattedText`, so the main-title rewrite
has no effect on the returned string; only the section-underline
replacements act.  The returned value is embedded here. -/
def formatTitles (text : List Char) (_format : JournalFormat) : List Char :=
  sectionTitles.foldl (fun acc title => replaceHdr title.data acc) text

/-- Source `formatSections` (lines 240-255): promote each section keyword
to a standalone header, then collapse runs of three or more newlines. -/
def formatSections (text : List Char) (_format : JournalFormat) : List Char :=
  collapseNl 3 (sectionNames.foldl (fun acc s => replaceWord s.data acc) text)

/-- A trimmed line consisting only of `[A-Z\s]` characters (the
`/^[A-Z\s]+$/` header test of `formatParagraphs`). -/
def isUpperWsLine (l : List Char) : Bool :=
  !l.isEmpty && l.all (fun c => decide ('A' ≤ c ∧ c ≤ 'Z') || isJsSpace c)

/-- Source `formatParagraphs` (lines 257-274): collapse runs of two or
more newlines to two, then indent every non-first, non-blank,
non-all-uppercase line by four spaces. -/
def formatParagraphs (text : List Char) (_format : JournalFormat) : List Char :=
  let collapsed := collapseNl 2 text
  let ls := collapsed.splitOn '\n'
  let indented := ls.enum.map (fun p =>
    if !(jsTrim p.2).isEmpty && !isUpperWsLine (jsTrim p.2) && decide (0 < p.1) then
      "    ".data ++ p.2
    else p.2)
  List.intercalate ['\n'] indented

/-- The banner header line with its trailing newline:
`"FORMATTED FOR: " ++ format.name.toUpperCase() ++ "\n"`. -/
def bannerHeader (format : JournalFormat) : List Char :=
  "FORMATTED FOR: ".data ++ jsUpper format.name.data ++ ['\n']

/-- The banner underline: `"=".repeat(header.length - 1) ++ "\n\n"`. -/
def bannerHeaderLine (format : JournalFormat) : List Char :=
  List.replicate ((bannerHeader format).length - 1) '=' ++ "\n\n".data

/-- The formatting-specifications block of the banner (lines 176-181). -/
def formattingSpecs (format : JournalFormat) : List Char :=
  "FORMATTING SPECIFICATIONS:\n- Word Limit: ".data ++
  (jsToLocaleString format.wordLimit).data ++
  " words\n- Line Spacing: ".data ++ format.lineSpacing.data ++
  "\n- Reference Style: ".data ++ format.referenceStyle.data ++
  "\n- Font: ".data ++ format.fontFamily.data ++ [' '] ++ (jsNumToString format.fontSize).data ++
  "pt\n- Margins: ".data ++ format.margins.top.data ++
  "\" top, ".data ++ format.margins.bottom.data ++
  "\" bottom, ".data ++ format.margins.left.data ++
  "\" left, ".data ++ format.margins.right.data ++
  "\" right\n\n".data

/-- Source `applyJournalSpecificFormatting` (lines 168-186): prepend
banner header, underline and specifications block. -/
def applyJournalSpecificFormatting (text : List Char) (format : JournalFormat) : List Char :=
  bannerHeader format ++ bannerHeaderLine format ++ formattingSpecs format ++ text

/-- Source `applyJournalFormatting` (lines 147-166): titles, then
references, then sections, then paragraphs, then the banner. -/
def applyJournalFormatting (text : List Char) (format : JournalFormat) : List Char :=
  applyJournalSpecificFormatting
    (formatParagraphs
      (formatSections
        (formatReferences (formatTitles text format) format.referenceStyle) format) format)
    format

/-- The word-limit truncation of `formatDocument` (lines 116-124): trim,
split into tokens, and if the token count exceeds the limit keep the first
`wordLimit` tokens joined by single spaces; otherwise the trimmed text
passes through. -/
def applyWordLimit (t : List Char) (wordLimit : Nat) : List Char :=
  let trimmed := jsTrim t
  let words := splitWs trimmed
  if wordLimit < words.length then List.intercalate [' '] (words.take wordLimit) else trimmed

/-- Source `formatDocument` (lines 105-145), pure part: `none` models the
empty-input error path; otherwise the pipeline output with the final word
count taken on the final content. -/
def formatDocument (manuscriptText : String) (selectedFormat : JournalFormat) :
    Option FormattedDocument :=
  if (jsTrim manuscriptText.data).isEmpty then none
  else
    let formattedText :=
      applyJournalFormatting (applyWordLimit manuscriptText.data selectedFormat.wordLimit)
        selectedFormat
    some { content := ⟨formattedText⟩,
           wordCount := (splitWs formattedText).length,
           format := selectedFormat,
           originalFileName := "manuscript.txt" }

/-- The token list of a string (used for word counts). -/
def wordTokens (s : String) : List (List Char) := splitWs s.data

/-- The `customFormat` draft state (`Partial<JournalFormat>`): each field
may be absent.  The numeric display fields are carried as their rendered
strings; their JS falsy value 0 renders as "0". -/
structure CustomFormatDraft where
  name : Option String
  description : Option String
  lineSpacing : Option String
  wordLimit : Option Nat
  referenceStyle : Option String
  fontFamily : Option String
  fontSize : Option Nat
  margins : Option JMargins
deriving DecidableEq, Repr

/-- JS `x || d` for an optional string field: absent and `""` are falsy. -/
def jsOrStr (v : Option String) (d : String) : String :=
  match v with
  | none => d
  | some s => if s = "" then d else s

/-- JS `x || d` for an optional numeric field: absent and `0` are falsy. -/
def jsOrNat (v : Option Nat) (d : Nat) : Nat :=
  match v with
  | none => d
  | some n => if n = 0 then d else n

/-- JS `x || d` for a numeric display field carried as a string: absent
and the rendering "0" of the falsy number 0 take the default. -/
def jsOrNumStr (v : Option String) (d : String) : String :=
  match v with
  | none => d
  | some s => if s = "0" then d else s

/-- JS `x || d` for an optional object field: absent is falsy. -/
def jsOrMargins (v : Option JMargins) (d : JMargins) : JMargins :=
  match v with
  | none => d
  | some m => m

/-- The truthiness test `!customFormat.name` of `saveCustomFormat`. -/
def draftNameMissing (d : CustomFormatDraft) : Bool :=
  match d.name with
  | none => true
  | some s => s == ""

/-- The component state: the `useState` hooks of `PublicationFormatter`
that the verified behaviour depends on, plus the `localStorage`
`customFormats` array. -/
structure AppState where
  manuscriptText : String
  journalFormats : List JournalFormat
  selectedFormat : JournalFormat
  formattedDocument : Option FormattedDocument
  error : Option String
  showCustomFormat : Bool
  customFormat : CustomFormatDraft
  storedFormats : List JournalFormat
deriving Repr

/-- The initial draft value of the `customFormat` hook. -/
def initialDraft : CustomFormatDraft :=
  { name := some "", description := some "", lineSpacing := some "1.5",
    wordLimit := some 5000, referenceStyle := some "Vancouver",
    fontFamily := some "Times New Roman", fontSize := some 12,
    margins := some { top := "1", bottom := "1", left := "1", right := "1" } }

/-- The initial component state. -/
def initialState : AppState :=
  { manuscriptText := "",
    journalFormats := DEFAULT_JOURNAL_FORMATS,
    selectedFormat := DEFAULT_JOURNAL_FORMATS[0],
    formattedDocument := none,
    error := none,
    showCustomFormat := false,
    customFormat := initialDraft,
    storedFormats := [] }

/-- The id assigned to a user format: `custom_${Date.now()}` with the
timestamp in milliseconds. -/
def mkCustomId (now : Nat) : String := "custom_" ++ jsNumToString now

/-- Source `saveCustomFormat` (lines 349-376), with `now = Date.now()`:
reject a falsy name, otherwise build the new format with `||` defaults,
append it, select it, close the form, clear the error and persist. -/
def saveCustomFormat (st : AppState) (now : Nat) : AppState :=
  if draftNameMissing st.customFormat then
    { st with error := some "Please enter a journal name" }
  else
    let newFormat : JournalFormat :=
      { id := mkCustomId now,
        name := jsOrStr st.customFormat.name "",
        description := jsOrStr st.customFormat.description "",
        lineSpacing := jsOrNumStr st.customFormat.lineSpacing "1.5",
        wordLimit := jsOrNat st.customFormat.wordLimit 5000,
        referenceStyle := jsOrStr st.customFormat.referenceStyle "Vancouver",
        fontFamily := jsOrStr st.customFormat.fontFamily "Times New Roman",
        fontSize := jsOrNat st.customFormat.fontSize 12,
        margins := jsOrMargins st.customFormat.margins
          { top := "1", bottom := "1", left := "1", right := "1" } }
    { st with
      journalFormats := st.journalFormats ++ [newFormat],
      selectedFormat := newFormat,
      showCustomFormat := false,
      error := none,
      storedFormats := st.storedFormats ++ [newFormat] }

/-- The user-visible events that touch the verified state: editing the
manuscript text (the textarea `onChange`, which also models the
sample-loader button: both set the text and clear result and error),
clicking Format Document, editing the custom-format draft, and clicking
Save Custom Format at a given `Date.now()`. -/
inductive AppEvent where
  | setText (s : String)
  | formatClick
  | setDraft (d : CustomFormatDraft)
  | saveClick (now : Nat)

/-- The state transition of each event, from the source handlers. -/
def applyEvent (st : AppState) : AppEvent → AppState
  | .setText s => { st with manuscriptText := s, formattedDocument := none, error := none }
  | .formatClick =>
    match formatDocument st.manuscriptText st.selectedFormat with
    | none => { st with error := some "Please enter your manuscript text" }
    | some doc => { st with formattedDocument := some doc, error := none }
  | .setDraft d => { st with customFormat := d }
  | .saveClick now => saveCustomFormat st now

/-- States reachable from the initial component state by user events. -/
inductive Reachable : AppState → Prop
  | init : Reachable initialState
  | step {st : AppState} (ev : AppEvent) : Reachable st → Reachable (applyEvent st ev)

/-- The journal format of the end-to-end example of the spec (section 8):
Test Journal, IEEE, wordLimit 1000, Arial 12pt, line spacing 1.5, all
margins 1. -/
def testFormat : JournalFormat :=
  { id := "test", name := "Test Journal", description := "",
    lineSpacing := "1.5", wordLimit := 1000, referenceStyle := "IEEE",
    fontFamily := "Arial", fontSize := 12,
    margins := { top := "1", bottom := "1", left := "1", right := "1" } }

/-- The input text of the end-to-end example. -/
def c1Input : String := "My Title\n\nAbstract\nSome text [1] and (2)."

/-- Does some line equal to `hdr` sit immediately above a non-empty line
consisting only of `=` characters? -/
def hasHeaderUnderlinePair (content : List Char) (hdr : List Char) : Bool :=
  let ls := content.splitOn '\n'
  (ls.zip ls.tail).any (fun p => p.1 == hdr && (!p.2.isEmpty && p.2.all (fun c => c == '=')))

set_option maxRecDepth 100000

/-! ## List scanning helper lemmas -/

theorem takeWhile_all_append (p : Char → Bool) (l r : List Char) (h : ∀ c ∈ l, p c = true) :
    (l ++ r).takeWhile p = l ++ r.takeWhile p := by
  induction l with
  | nil => rfl
  | cons c cs ih =>
    simp only [List.cons_append, List.takeWhile_cons, h c (by simp)]
    simp [ih (fun d hd => h d (by simp [hd]))]

theorem dropWhile_all_append (p : Char → Bool) (l r : List Char) (h : ∀ c ∈ l, p c = true) :
    (l ++ r).dropWhile p = r.dropWhile p := by
  induction l with
  | nil => rfl
  | cons c cs ih =>
    simp only [List.cons_append, List.dropWhile_cons, h c (by simp)]
    exact ih (fun d hd => h d (by simp [hd]))

theorem takeWhile_cons_false (p : Char → Bool) (c : Char) (l : List Char) (h : p c = false) :
    (c :: l).takeWhile p = [] := by
  simp [List.takeWhile_cons, h]

theorem dropWhile_cons_false (p : Char → Bool) (c : Char) (l : List Char) (h : p c = false) :
    (c :: l).dropWhile p = c :: l := by
  simp [List.dropWhile_cons, h]

theorem allDigits_takeWhile (l : List Char) : AllDigits (l.takeWhile Char.isDigit) :=
  fun _ hc => List.mem_takeWhile_imp hc

theorem dropWhile_head_false (p : Char → Bool) (l : List Char) (c : Char) (r : List Char)
    (h : l.dropWhile p = c :: r) : p c = false := by
  have h2 := List.head_dropWhile_not p l (by simp [h])
  simpa [h] using h2

theorem length_dropWhile_le_len (p : Char → Bool) (l : List Char) :
    (l.dropWhile p).length ≤ l.length :=
  (List.dropWhile_suffix p).length_le

/-! ## Fuel irrelevance and surface equations for the delimiter scanner -/

theorem replDelimF_fuelIrrel (op cl : Char) (f : List Char → List Char) :
    ∀ fu fu' (t : List Char), t.length ≤ fu → t.length ≤ fu' →
      replDelimF op cl f fu t = replDelimF op cl f fu' t := by
  intro fu
  induction fu with
  | zero =>
    intro fu' t ht _
    have : t = [] := List.eq_nil_of_length_eq_zero (Nat.le_zero.mp ht)
    subst this
    cases fu' <;> simp [replDelimF]
  | succ m ih =>
    intro fu' t ht ht'
    cases t with
    | nil => cases fu' <;> simp [replDelimF]
    | cons c rest =>
      cases fu' with
      | zero => simp at ht'
      | succ m' =>
        have hrest : rest.length ≤ m := by simpa using ht
        have hrest' : rest.length ≤ m' := by simpa using ht'
        simp only [replDelimF]
        rcases h2 : rest.dropWhile Char.isDigit with _ | ⟨c2, r2⟩ <;>
          rcases h3 : rest.takeWhile Char.isDigit with _ | ⟨d, ds⟩ <;>
          simp only [ih m' rest hrest hrest']
        have hr2 : r2.length ≤ rest.length := by
          have := length_dropWhile_le_len Char.isDigit rest
          rw [h2] at this
          simpa using Nat.le_of_succ_le this
        rw [ih m' r2 (le_trans hr2 hrest) (le_trans hr2 hrest')]

theorem replDelim_nil (op cl : Char) (f : List Char → List Char) :
    replDelim op cl f [] = [] := rfl

theorem replDelim_cons_ne (op cl : Char) (f : List Char → List Char) (c : Char)
    (rest : List Char) (h : c ≠ op) :
    replDelim op cl f (c :: rest) = c :: replDelim op cl f rest := by
  unfold replDelim
  simp [replDelimF, h]

theorem replDelim_match (op cl : Char) (f : List Char → List Char) (hcl : cl.isDigit = false)
    (ds rest : List Char) (hds : AllDigits ds) (hne : ds ≠ []) :
    replDelim op cl f (op :: (ds ++ cl :: rest)) = f ds ++ replDelim op cl f rest := by
  have ht : (ds ++ cl :: rest).takeWhile Char.isDigit = ds := by
    rw [takeWhile_all_append Char.isDigit ds _ hds, takeWhile_cons_false Char.isDigit cl rest hcl,
      List.append_nil]
  have hd : (ds ++ cl :: rest).dropWhile Char.isDigit = cl :: rest := by
    rw [dropWhile_all_append Char.isDigit ds _ hds, dropWhile_cons_false Char.isDigit cl rest hcl]
  rcases ds with _ | ⟨d, ds0⟩
  · exact absurd rfl hne
  unfold replDelim
  simp only [List.cons_append] at ht hd
  rw [show (op :: (d :: ds0 ++ cl :: rest)).length = (d :: ds0 ++ cl :: rest).length + 1 from rfl]
  rw [replDelimF]
  simp [ht, hd]
  rw [replDelimF_fuelIrrel op cl f (ds0.length + (rest.length + 1) + 1) rest.length rest
    (by omega) le_rfl]

theorem replDelim_cons_nomatch (op cl : Char) (f : List Char → List Char) (rest : List Char)
    (h : rest.takeWhile Char.isDigit = [] ∨ (rest.dropWhile Char.isDigit).head? ≠ some cl) :
    replDelim op cl f (op :: rest) = op :: replDelim op cl f rest := by
  unfold replDelim
  simp only [List.length_cons, replDelimF, if_pos rfl]
  rcases h2 : rest.dropWhile Char.isDigit with _ | ⟨c2, r2⟩ <;>
    rcases h3 : rest.takeWhile Char.isDigit with _ | ⟨d, ds⟩ <;> simp
  rcases h with h | h
  · rw [h3] at h
    exact absurd h (by simp)
  · rw [h2] at h
    have hcc : c2 ≠ cl := fun hh => h (by simp [hh])
    simp [hcc]

theorem simulRefF_fuelIrrel (f g : List Char → List Char) :
    ∀ fu fu' (t : List Char), t.length ≤ fu → t.length ≤ fu' →
      simulRefF f g fu t = simulRefF f g fu' t := by
  intro fu
  induction fu with
  | zero =>
    intro fu' t ht _
    have : t = [] := List.eq_nil_of_length_eq_zero (Nat.le_zero.mp ht)
    subst this
    cases fu' <;> simp [simulRefF]
  | succ m ih =>
    intro fu' t ht ht'
    cases t with
    | nil => cases fu' <;> simp [simulRefF]
    | cons c rest =>
      cases fu' with
      | zero => simp at ht'
      | succ m' =>
        have hrest : rest.length ≤ m := by simpa using ht
        have hrest' : rest.length ≤ m' := by simpa using ht'
        simp only [simulRefF]
        rcases h2 : rest.dropWhile Char.isDigit with _ | ⟨c2, r2⟩ <;>
          rcases h3 : rest.takeWhile Char.isDigit with _ | ⟨d, ds⟩ <;>
          simp only [ih m' rest hrest hrest']
        have hr2 : r2.length ≤ rest.length := by
          have := length_dropWhile_le_len Char.isDigit rest
          rw [h2] at this
          simpa using Nat.le_of_succ_le this
        simp only [ih m' r2 (le_trans hr2 hrest) (le_trans hr2 hrest')]

theorem simulRef_nil (f g : List Char → List Char) : simulRef f g [] = [] := rfl

theorem simulRef_cons_other (f g : List Char → List Char) (c : Char) (rest : List Char)
    (hb : c ≠ '[') (hp : c ≠ '(') :
    simulRef f g (c :: rest) = c :: simulRef f g rest := by
  unfold simulRef
  simp [simulRefF, hb, hp]

theorem simulRef_bracket_match (f g : List Char → List Char) (ds rest : List Char)
    (hds : AllDigits ds) (hne : ds ≠ []) :
    simulRef f g ('[' :: (ds ++ ']' :: rest)) = f ds ++ simulRef f g rest := by
  have ht : (ds ++ ']' :: rest).takeWhile Char.isDigit = ds := by
    rw [takeWhile_all_append Char.isDigit ds _ hds,
      takeWhile_cons_false Char.isDigit _ rest (by decide), List.append_nil]
  have hd : (ds ++ ']' :: rest).dropWhile Char.isDigit = ']' :: rest := by
    rw [dropWhile_all_append Char.isDigit ds _ hds,
      dropWhile_cons_false Char.isDigit _ rest (by decide)]
  rcases ds with _ | ⟨d, ds0⟩
  · exact absurd rfl hne
  unfold simulRef
  simp only [List.cons_append] at ht hd
  rw [show ('[' :: (d :: ds0 ++ ']' :: rest)).length = (d :: ds0 ++ ']' :: rest).length + 1
    from rfl]
  rw [simulRefF]
  simp [ht, hd]
  rw [simulRefF_fuelIrrel f g (ds0.length + (rest.length + 1) + 1) rest.length rest
    (by omega) le_rfl]

theorem simulRef_bracket_nomatch (f g : List Char → List Char) (rest : List Char)
    (h : rest.takeWhile Char.isDigit = [] ∨ (rest.dropWhile Char.isDigit).head? ≠ some ']') :
    simulRef f g ('[' :: rest) = '[' :: simulRef f g rest := by
  unfold simulRef
  rw [show ('[' :: rest).length = rest.length + 1 from rfl]
  rw [simulRefF]
  rcases h2 : rest.dropWhile Char.isDigit with _ | ⟨c2, r2⟩ <;>
    rcases h3 : rest.takeWhile Char.isDigit with _ | ⟨d, ds⟩ <;> simp
  rcases h with h | h
  · rw [h3] at h
    exact absurd h (by simp)
  · rw [h2] at h
    have hcc : c2 ≠ ']' := fun hh => h (by simp [hh])
    simp [hcc]

theorem simulRef_paren_match (f g : List Char → List Char) (ds rest : List Char)
    (hds : AllDigits ds) (hne : ds ≠ []) :
    simulRef f g ('(' :: (ds ++ ')' :: rest)) = g ds ++ simulRef f g rest := by
  have ht : (ds ++ ')' :: rest).takeWhile Char.isDigit = ds := by
    rw [takeWhile_all_append Char.isDigit ds _ hds,
      takeWhile_cons_false Char.isDigit _ rest (by decide), List.append_nil]
  have hd : (ds ++ ')' :: rest).dropWhile Char.isDigit = ')' :: rest := by
    rw [dropWhile_all_append Char.isDigit ds _ hds,
      dropWhile_cons_false Char.isDigit _ rest (by decide)]
  rcases ds with _ | ⟨d, ds0⟩
  · exact absurd rfl hne
  unfold simulRef
  simp only [List.cons_append] at ht hd
  rw [show ('(' :: (d :: ds0 ++ ')' :: rest)).length = (d :: ds0 ++ ')' :: rest).length + 1
    from rfl]
  rw [simulRefF]
  simp [ht, hd]
  rw [simulRefF_fuelIrrel f g (ds0.length + (rest.length + 1) + 1) rest.length rest
    (by omega) le_rfl]

theorem simulRef_paren_nomatch (f g : List Char → List Char) (rest : List Char)
    (h : rest.takeWhile Char.isDigit = [] ∨ (rest.dropWhile Char.isDigit).head? ≠ some ')') :
    simulRef f g ('(' :: rest) = '(' :: simulRef f g rest := by
  unfold simulRef
  rw [show ('(' :: rest).length = rest.length + 1 from rfl]
  rw [simulRefF]
  rcases h2 : rest.dropWhile Char.isDigit with _ | ⟨c2, r2⟩ <;>
    rcases h3 : rest.takeWhile Char.isDigit with _ | ⟨d, ds⟩ <;> simp
  rcases h with h | h
  · rw [h3] at h
    exact absurd h (by simp)
  · rw [h2] at h
    have hcc : c2 ≠ ')' := fun hh => h (by simp [hh])
    simp [hcc]

theorem replDelim_leading_digits (op cl : Char) (f : List Char → List Char)
    (hop : op.isDigit = false) (ds : List Char) (hds : AllDigits ds) (u : List Char) :
    replDelim op cl f (ds ++ u) = ds ++ replDelim op cl f u := by
  induction ds with
  | nil => rfl
  | cons d ds0 ih =>
    have hd : d ≠ op := by
      intro hh
      rw [hh] at hds
      exact absurd (hds op (by simp)) (by simp [hop])
    rw [List.cons_append, replDelim_cons_ne op cl f d (ds0 ++ u) hd,
      ih (fun c hc => hds c (by simp [hc]))]
    rfl

theorem replaceBracketNums_head (f : List Char → List Char)
    (hhead : ∀ ds, AllDigits ds → ds ≠ [] →
      ∃ h w, f ds = h :: w ∧ h.isDigit = false ∧ h ≠ ')')
    (c : Char) (rest : List Char) (hc : c.isDigit = false) :
    ∃ h w, replaceBracketNums f (c :: rest) = h :: w ∧ h.isDigit = false ∧
      (c ≠ ')' → h ≠ ')') := by
  by_cases hb : c = '['
  · subst hb
    rcases h3 : rest.takeWhile Char.isDigit with _ | ⟨d, ds⟩
    · refine ⟨'[', replaceBracketNums f rest, ?_, by decide, by decide⟩
      exact replDelim_cons_nomatch '[' ']' f rest (Or.inl h3)
    · rcases h2 : rest.dropWhile Char.isDigit with _ | ⟨c2, r2⟩
      · refine ⟨'[', replaceBracketNums f rest, ?_, by decide, by decide⟩
        refine replDelim_cons_nomatch '[' ']' f rest (Or.inr ?_)
        rw [h2]
        simp
      · by_cases hcc : c2 = ']'
        · subst hcc
          have hrest : rest = (d :: ds) ++ ']' :: r2 := by
            conv_lhs => rw [(List.takeWhile_append_dropWhile Char.isDigit rest).symm]
            rw [h3, h2]
          have hall : AllDigits (d :: ds) := by
            rw [← h3]
            exact allDigits_takeWhile rest
          obtain ⟨h, w, hf, hdig, hpar⟩ := hhead (d :: ds) hall (by simp)
          refine ⟨h, w ++ replaceBracketNums f r2, ?_, hdig, fun _ => hpar⟩
          rw [hrest]
          unfold replaceBracketNums
          rw [replDelim_match '[' ']' f (by decide) (d :: ds) r2 hall (by simp), hf]
          simp
        · refine ⟨'[', replaceBracketNums f rest, ?_, by decide, by decide⟩
          refine replDelim_cons_nomatch '[' ']' f rest (Or.inr ?_)
          rw [h2]
          simp [hcc]
  · refine ⟨c, replaceBracketNums f rest, ?_, hc, fun hcp => hcp⟩
    exact replDelim_cons_ne '[' ']' f c rest hb

theorem twoPass_eq_simul (f g : List Char → List Char)
    (hf : ∀ ds u, AllDigits ds → ds ≠ [] →
      replDelim '(' ')' g (f ds ++ u) = f ds ++ replDelim '(' ')' g u)
    (hhead : ∀ ds, AllDigits ds → ds ≠ [] →
      ∃ h w, f ds = h :: w ∧ h.isDigit = false ∧ h ≠ ')') :
    ∀ n (t : List Char), t.length ≤ n →
      replDelim '(' ')' g (replDelim '[' ']' f t) = simulRef f g t := by
  intro n
  induction n with
  | zero =>
    intro t ht
    have : t = [] := List.eq_nil_of_length_eq_zero (Nat.le_zero.mp ht)
    subst this
    rfl
  | succ m ih =>
    intro t ht
    cases t with
    | nil => rfl
    | cons c rest =>
      have hrest : rest.length ≤ m := by simpa using ht
      by_cases hb : c = '['
      · subst hb
        rcases h3 : rest.takeWhile Char.isDigit with _ | ⟨d, ds⟩
        · rw [replDelim_cons_nomatch '[' ']' f rest (Or.inl h3),
            replDelim_cons_ne '(' ')' g '[' _ (by decide), ih rest hrest,
            simulRef_bracket_nomatch f g rest (Or.inl h3)]
        · rcases h2 : rest.dropWhile Char.isDigit with _ | ⟨c2, r2⟩
          · rw [replDelim_cons_nomatch '[' ']' f rest (Or.inr (by rw [h2]; simp)),
              replDelim_cons_ne '(' ')' g '[' _ (by decide), ih rest hrest,
              simulRef_bracket_nomatch f g rest (Or.inr (by rw [h2]; simp))]
          · by_cases hcc : c2 = ']'
            · subst hcc
              have hrestEq : rest = (d :: ds) ++ ']' :: r2 := by
                conv_lhs => rw [(List.takeWhile_append_dropWhile Char.isDigit rest).symm]
                rw [h3, h2]
              have hall : AllDigits (d :: ds) := by
                rw [← h3]
                exact allDigits_takeWhile rest
              have hr2 : r2.length ≤ m := by
                have : rest.length = ds.length + 1 + (r2.length + 1) := by
                  rw [hrestEq]
                  simp [List.length_append]
                  omega
                omega
              rw [hrestEq, replDelim_match '[' ']' f (by decide) (d :: ds) r2 hall (by simp),
                hf (d :: ds) (replDelim '[' ']' f r2) hall (by simp), ih r2 hr2,
                simulRef_bracket_match f g (d :: ds) r2 hall (by simp)]
            · rw [replDelim_cons_nomatch '[' ']' f rest (Or.inr (by rw [h2]; simp [hcc])),
                replDelim_cons_ne '(' ')' g '[' _ (by decide), ih rest hrest,
                simulRef_bracket_nomatch f g rest (Or.inr (by rw [h2]; simp [hcc]))]
      · by_cases hp : c = '('
        · subst hp
          rw [replDelim_cons_ne '[' ']' f '(' rest (by decide)]
          rcases h3 : rest.takeWhile Char.isDigit with _ | ⟨d, ds⟩
          · cases rest with
            | nil =>
              rw [show replDelim '[' ']' f [] = [] from rfl,
                replDelim_cons_nomatch '(' ')' g [] (Or.inl rfl),
                simulRef_paren_nomatch f g [] (Or.inl rfl)]
              rfl
            | cons c0 r0 =>
              have hc0 : c0.isDigit = false := by
                by_contra hcon
                rw [List.takeWhile_cons, if_pos (by simpa using hcon)] at h3
                exact absurd h3 (by simp)
              obtain ⟨h, w, hw, hdig, _⟩ := replaceBracketNums_head f hhead c0 r0 hc0
              have hw2 : replDelim '[' ']' f (c0 :: r0) = h :: w := hw
              have hIH := ih (c0 :: r0) hrest
              rw [hw2] at hIH
              rw [hw2, replDelim_cons_nomatch '(' ')' g (h :: w)
                  (Or.inl (takeWhile_cons_false Char.isDigit h w hdig)), hIH,
                simulRef_paren_nomatch f g (c0 :: r0) (Or.inl h3)]
          · have hall : AllDigits (d :: ds) := by
              rw [← h3]
              exact allDigits_takeWhile rest
            rcases h2 : rest.dropWhile Char.isDigit with _ | ⟨c2, r2⟩
            · have hrestEq : rest = (d :: ds) := by
                conv_lhs => rw [(List.takeWhile_append_dropWhile Char.isDigit rest).symm]
                rw [h3, h2, List.append_nil]
              have hB : replDelim '[' ']' f rest = rest := by
                conv_lhs => rw [hrestEq, show (d :: ds) = (d :: ds) ++ [] by simp]
                rw [replDelim_leading_digits '[' ']' f (by decide) (d :: ds) hall []]
                simp [hrestEq]
                rfl
              have hIH := ih rest hrest
              rw [hB] at hIH
              rw [hB, replDelim_cons_nomatch '(' ')' g rest (Or.inr (by rw [h2]; simp)), hIH,
                simulRef_paren_nomatch f g rest (Or.inr (by rw [h2]; simp))]
            · have hc2 : c2.isDigit = false := dropWhile_head_false Char.isDigit rest c2 r2 h2
              have hrestEq : rest = (d :: ds) ++ c2 :: r2 := by
                conv_lhs => rw [(List.takeWhile_append_dropWhile Char.isDigit rest).symm]
                rw [h3, h2]
              by_cases hcp : c2 = ')'
              · subst hcp
                have hr2 : r2.length ≤ m := by
                  have : rest.length = ds.length + 1 + (r2.length + 1) := by
                    rw [hrestEq]
                    simp [List.length_append]
                    omega
                  omega
                have hB : replDelim '[' ']' f rest =
                    (d :: ds) ++ ')' :: replDelim '[' ']' f r2 := by
                  rw [hrestEq, replDelim_leading_digits '[' ']' f (by decide) (d :: ds) hall,
                    replDelim_cons_ne '[' ']' f ')' r2 (by decide)]
                rw [hB, replDelim_match '(' ')' g (by decide) (d :: ds)
                    (replDelim '[' ']' f r2) hall (by simp), ih r2 hr2, hrestEq,
                  simulRef_paren_match f g (d :: ds) r2 hall (by simp)]
              · obtain ⟨h, w, hw, hdig, hpar⟩ := replaceBracketNums_head f hhead c2 r2 hc2
                have hw2 : replDelim '[' ']' f (c2 :: r2) = h :: w := hw
                have hB : replDelim '[' ']' f rest = (d :: ds) ++ h :: w := by
                  rw [hrestEq, replDelim_leading_digits '[' ']' f (by decide) (d :: ds) hall,
                    hw2]
                have hcond : ((d :: ds ++ h :: w).dropWhile Char.isDigit).head? ≠ some ')' := by
                  rw [show (d :: ds ++ h :: w : List Char) = (d :: ds) ++ h :: w from rfl,
                    dropWhile_all_append Char.isDigit (d :: ds) _ hall,
                    dropWhile_cons_false Char.isDigit h w hdig]
                  simpa using hpar hcp
                have hIH := ih rest hrest
                rw [hB] at hIH
                rw [hB, replDelim_cons_nomatch '(' ')' g ((d :: ds) ++ h :: w)
                    (Or.inr (by simpa using hcond)), hIH,
                  simulRef_paren_nomatch f g rest
                    (Or.inr (by rw [h2]; simpa using hcp))]
        · rw [replDelim_cons_ne '[' ']' f c rest hb, replDelim_cons_ne '(' ')' g c _ hp,
            ih rest hrest, simulRef_cons_other f g c rest hb hp]

theorem replDelim_skip (op cl : Char) (g : List Char → List Char) (l : List Char)
    (hl : ∀ c ∈ l, c ≠ op) (u : List Char) :
    replDelim op cl g (l ++ u) = l ++ replDelim op cl g u := by
  induction l with
  | nil => rfl
  | cons c cs ih =>
    rw [List.cons_append, replDelim_cons_ne op cl g c (cs ++ u) (hl c (by simp)),
      ih (fun d hd => hl d (by simp [hd]))]
    rfl

theorem hf_of_no_open (gg f : List Char → List Char)
    (hno : ∀ ds, AllDigits ds → ds ≠ [] → ∀ c ∈ f ds, c ≠ '(') :
    ∀ ds u, AllDigits ds → ds ≠ [] →
      replDelim '(' ')' gg (f ds ++ u) = f ds ++ replDelim '(' ')' gg u :=
  fun ds u hds hne => replDelim_skip '(' ')' gg (f ds) (hno ds hds hne) u

theorem digit_ne_open {c : Char} (h : c.isDigit = true) : c ≠ '(' := by
  intro hh
  rw [hh] at h
  exact absurd h (by decide)

theorem no_open_bracketNumRep :
    ∀ ds, AllDigits ds → ds ≠ [] → ∀ c ∈ bracketNumRep ds, c ≠ '(' := by
  intro ds hds _ c hc
  rcases List.mem_cons.mp hc with h | h
  · subst h; decide
  · rcases List.mem_append.mp h with h | h
    · exact digit_ne_open (hds c h)
    · rw [List.mem_singleton.mp h]; decide

theorem no_open_superscriptRep :
    ∀ ds, AllDigits ds → ds ≠ [] → ∀ c ∈ superscriptRep ds, c ≠ '(' := by
  intro ds hds _ c hc
  rcases List.mem_cons.mp hc with h | h
  · subst h; decide
  · rcases List.mem_append.mp h with h | h
    · exact digit_ne_open (hds c h)
    · rw [List.mem_singleton.mp h]; decide

theorem hf_parenNumRep (gg : List Char → List Char)
    (hgg : ∀ ds, AllDigits ds → ds ≠ [] → gg ds = parenNumRep ds) :
    ∀ ds u, AllDigits ds → ds ≠ [] →
      replDelim '(' ')' gg (parenNumRep ds ++ u) = parenNumRep ds ++ replDelim '(' ')' gg u := by
  intro ds u hds hne
  have hsh : parenNumRep ds ++ u = '(' :: (ds ++ ')' :: u) := by
    simp [parenNumRep]
  rw [hsh, replDelim_match '(' ')' gg (by decide) ds u hds hne, hgg ds hds hne]

theorem hhead_parenNumRep :
    ∀ ds, AllDigits ds → ds ≠ [] →
      ∃ h w, parenNumRep ds = h :: w ∧ h.isDigit = false ∧ h ≠ ')' :=
  fun ds _ _ => ⟨'(', ds ++ [')'], rfl, by decide, by decide⟩

theorem hhead_bracketNumRep :
    ∀ ds, AllDigits ds → ds ≠ [] →
      ∃ h w, bracketNumRep ds = h :: w ∧ h.isDigit = false ∧ h ≠ ')' :=
  fun ds _ _ => ⟨'[', ds ++ [']'], rfl, by decide, by decide⟩

theorem hhead_superscriptRep :
    ∀ ds, AllDigits ds → ds ≠ [] →
      ∃ h w, superscriptRep ds = h :: w ∧ h.isDigit = false ∧ h ≠ ')' :=
  fun ds _ _ => ⟨'^', ds ++ ['^'], rfl, by decide, by decide⟩

theorem hhead_authorYearBracket :
    ∀ ds, AllDigits ds → ds ≠ [] →
      ∃ h w, authorYearBracket ds = h :: w ∧ h.isDigit = false ∧ h ≠ ')' :=
  fun _ _ _ => ⟨'[', "Author, Year]".data, rfl, by decide, by decide⟩

theorem hhead_chicagoBracket :
    ∀ ds, AllDigits ds → ds ≠ [] →
      ∃ h w, chicagoBracket ds = h :: w ∧ h.isDigit = false ∧ h ≠ ')' :=
  fun _ _ _ => ⟨'[', "Author Year]".data, rfl, by decide, by decide⟩

theorem hhead_mlaBracket :
    ∀ ds, AllDigits ds → ds ≠ [] →
      ∃ h w, mlaBracket ds = h :: w ∧ h.isDigit = false ∧ h ≠ ')' :=
  fun _ _ _ => ⟨'[', "Author Page]".data, rfl, by decide, by decide⟩

theorem no_open_authorYearBracket :
    ∀ ds, AllDigits ds → ds ≠ [] → ∀ c ∈ authorYearBracket ds, c ≠ '(' := by
  intro ds _ _
  show ∀ c ∈ "[Author, Year]".data, c ≠ '('
  decide

theorem no_open_chicagoBracket :
    ∀ ds, AllDigits ds → ds ≠ [] → ∀ c ∈ chicagoBracket ds, c ≠ '(' := by
  intro ds _ _
  show ∀ c ∈ "[Author Year]".data, c ≠ '('
  decide

theorem no_open_mlaBracket :
    ∀ ds, AllDigits ds → ds ≠ [] → ∀ c ∈ mlaBracket ds, c ≠ '(' := by
  intro ds _ _
  show ∀ c ∈ "[Author Page]".data, c ≠ '('
  decide

/-- C3: for every style in the fixed eleven-style enumeration, the
two-pass reference-conversion stage rewrites every `[n]` and `(n)`
exactly as the table of section 4.1 prescribes: it coincides with the
simultaneous one-pass table rewrite on every text. -/
theorem c3_formatReferences_table :
    ∀ style ∈ refStyles, ∀ t : List Char, formatReferences t style = specRefRewrite style t := by
  intro style hs t
  fin_cases hs <;>
    simp only [formatReferences, specRefRewrite, if_pos, if_neg, String.reduceEq, reduceIte,
      or_false, false_or, or_self]
  · exact twoPass_eq_simul parenNumRep parenNumRep
      (hf_parenNumRep parenNumRep (fun _ _ _ => rfl)) hhead_parenNumRep t.length t le_rfl
  · exact twoPass_eq_simul authorYearBracket authorYearParen
      (hf_of_no_open authorYearParen authorYearBracket no_open_authorYearBracket)
      hhead_authorYearBracket t.length t le_rfl
  · exact twoPass_eq_simul chicagoBracket chicagoParen
      (hf_of_no_open chicagoParen chicagoBracket no_open_chicagoBracket)
      hhead_chicagoBracket t.length t le_rfl
  · exact twoPass_eq_simul authorYearBracket authorYearParen
      (hf_of_no_open authorYearParen authorYearBracket no_open_authorYearBracket)
      hhead_authorYearBracket t.length t le_rfl
  · exact twoPass_eq_simul mlaBracket mlaParen
      (hf_of_no_open mlaParen mlaBracket no_open_mlaBracket)
      hhead_mlaBracket t.length t le_rfl
  · exact twoPass_eq_simul bracketNumRep bracketNumRep
      (hf_of_no_open bracketNumRep bracketNumRep no_open_bracketNumRep)
      hhead_bracketNumRep t.length t le_rfl
  · exact twoPass_eq_simul superscriptRep superscriptRep
      (hf_of_no_open superscriptRep superscriptRep no_open_superscriptRep)
      hhead_superscriptRep t.length t le_rfl
  · exact twoPass_eq_simul superscriptRep superscriptRep
      (hf_of_no_open superscriptRep superscriptRep no_open_superscriptRep)
      hhead_superscriptRep t.length t le_rfl
  · exact twoPass_eq_simul superscriptRep superscriptRep
      (hf_of_no_open superscriptRep superscriptRep no_open_superscriptRep)
      hhead_superscriptRep t.length t le_rfl
  · exact twoPass_eq_simul superscriptRep superscriptRep
      (hf_of_no_open superscriptRep superscriptRep no_open_superscriptRep)
      hhead_superscriptRep t.length t le_rfl
  · exact twoPass_eq_simul superscriptRep superscriptRep
      (hf_of_no_open superscriptRep superscriptRep no_open_superscriptRep)
      hhead_superscriptRep t.length t le_rfl

/-- Witness for C3 at the concrete style IEEE and a concrete text. -/
theorem c3_witness : "IEEE" ∈ refStyles ∧
    formatReferences "See [1] and (2).".data "IEEE" =
      specRefRewrite "IEEE" "See [1] and (2).".data :=
  ⟨by decide, c3_formatReferences_table "IEEE" (by decide) "See [1] and (2).".data⟩

/-- C10: on any referenceStyle outside the eleven enumerated styles the
reference-conversion stage is the identity: it returns the text unchanged
rather than failing. -/
theorem c10_formatReferences_unknown_style (style : String) (t : List Char)
    (h : style ∉ refStyles) : formatReferences t style = t := by
  simp only [refStyles, List.mem_cons, List.not_mem_nil, or_false, not_or] at h
  obtain ⟨h1, h2, h3, h4, h5, h6, h7, h8, h9, h10, h11⟩ := h
  simp [formatReferences, h1, h2, h3, h4, h5, h6, h7, h8, h9, h10, h11]

/-- Witness for C10 at a concrete unknown style. -/
theorem c10_witness : "Turabian" ∉ refStyles ∧
    formatReferences "abc [1] (2)".data "Turabian" = "abc [1] (2)".data :=
  ⟨by decide, c10_formatReferences_unknown_style "Turabian" "abc [1] (2)".data (by decide)⟩

theorem splitWsF_fuelIrrel :
    ∀ fu fu' (t : List Char), t.length ≤ fu → t.length ≤ fu' →
      splitWsF fu t = splitWsF fu' t := by
  intro fu
  induction fu with
  | zero =>
    intro fu' t ht _
    have : t = [] := List.eq_nil_of_length_eq_zero (Nat.le_zero.mp ht)
    subst this
    cases fu' <;> simp [splitWsF]
  | succ m ih =>
    intro fu' t ht ht'
    cases t with
    | nil => cases fu' <;> simp [splitWsF]
    | cons c rest =>
      cases fu' with
      | zero => simp at ht'
      | succ m' =>
        have hrest : rest.length ≤ m := by simpa using ht
        have hrest' : rest.length ≤ m' := by simpa using ht'
        have hdrop : (rest.dropWhile (fun d => !isJsSpace d)).length ≤ rest.length :=
          length_dropWhile_le_len _ rest
        simp only [splitWsF]
        rw [ih m' rest hrest hrest',
          ih m' (rest.dropWhile (fun d => !isJsSpace d)) (le_trans hdrop hrest)
            (le_trans hdrop hrest')]

theorem splitWs_nil : splitWs [] = [] := rfl

theorem splitWs_cons_space (c : Char) (rest : List Char) (h : isJsSpace c = true) :
    splitWs (c :: rest) = splitWs rest := by
  unfold splitWs
  rw [show (c :: rest).length = rest.length + 1 from rfl, splitWsF]
  simp [h]

theorem splitWs_cons_tok (c : Char) (rest : List Char) (h : isJsSpace c = false) :
    splitWs (c :: rest) =
      (c :: rest.takeWhile (fun d => !isJsSpace d)) ::
        splitWs (rest.dropWhile (fun d => !isJsSpace d)) := by
  unfold splitWs
  rw [show (c :: rest).length = rest.length + 1 from rfl, splitWsF]
  simp only [h, Bool.false_eq_true, if_false]
  rw [splitWsF_fuelIrrel rest.length (rest.dropWhile (fun d => !isJsSpace d)).length
    (rest.dropWhile (fun d => !isJsSpace d)) (length_dropWhile_le_len _ rest) le_rfl]

theorem splitWs_all_space : ∀ (s : List Char), (∀ c ∈ s, isJsSpace c = true) →
    splitWs s = [] := by
  intro s
  induction s with
  | nil => intro _; rfl
  | cons c rest ih =>
    intro h
    rw [splitWs_cons_space c rest (h c (by simp))]
    exact ih (fun d hd => h d (by simp [hd]))

theorem splitWs_tokens : ∀ n (t : List Char), t.length ≤ n →
    ∀ w ∈ splitWs t, w ≠ [] ∧ ∀ c ∈ w, isJsSpace c = false := by
  intro n
  induction n with
  | zero =>
    intro t ht
    have : t = [] := List.eq_nil_of_length_eq_zero (Nat.le_zero.mp ht)
    subst this
    simp [splitWs_nil]
  | succ m ih =>
    intro t ht w hw
    cases t with
    | nil => simp [splitWs_nil] at hw
    | cons c rest =>
      have hrest : rest.length ≤ m := by simpa using ht
      by_cases hc : isJsSpace c
      · rw [splitWs_cons_space c rest hc] at hw
        exact ih rest hrest w hw
      · rw [splitWs_cons_tok c rest (by simpa using hc)] at hw
        rcases List.mem_cons.mp hw with h | h
        · subst h
          refine ⟨by simp, ?_⟩
          intro d hd
          rcases List.mem_cons.mp hd with h | h
          · subst h
            simpa using hc
          · have := List.mem_takeWhile_imp h
            simpa using this
        · have hdrop : (rest.dropWhile (fun d => !isJsSpace d)).length ≤ m :=
            le_trans (length_dropWhile_le_len _ rest) hrest
          exact ih _ hdrop w h

theorem mem_takeWhile_nonspace {rest : List Char} {d : Char}
    (hd : d ∈ rest.takeWhile (fun d => !isJsSpace d)) : isJsSpace d = false := by
  have h5 := List.mem_takeWhile_imp hd
  simpa using h5

theorem splitWs_append_space : ∀ n (l s : List Char), l.length ≤ n →
    (∀ c ∈ s, isJsSpace c = true) → splitWs (l ++ s) = splitWs l := by
  intro n
  induction n with
  | zero =>
    intro l s hl hs
    have : l = [] := List.eq_nil_of_length_eq_zero (Nat.le_zero.mp hl)
    subst this
    simpa using splitWs_all_space s hs
  | succ m ih =>
    intro l s hl hs
    cases l with
    | nil => simpa using splitWs_all_space s hs
    | cons c rest =>
      have hrest : rest.length ≤ m := by simpa using hl
      by_cases hc : isJsSpace c
      · rw [List.cons_append, splitWs_cons_space c _ hc, splitWs_cons_space c rest hc]
        exact ih rest s hrest hs
      · have hcf : isJsSpace c = false := by simpa using hc
        rw [List.cons_append, splitWs_cons_tok c _ hcf, splitWs_cons_tok c rest hcf]
        have hsplit := List.takeWhile_append_dropWhile (fun d => !isJsSpace d) rest
        have htw : ∀ d ∈ rest.takeWhile (fun d => !isJsSpace d), (!isJsSpace d) = true := by
          intro d hd
          simp [mem_takeWhile_nonspace hd]
        rcases hD : rest.dropWhile (fun d => !isJsSpace d) with _ | ⟨sp, b⟩
        · have hall : ∀ d ∈ rest, (!isJsSpace d) = true := by
            intro d hd
            rw [← hsplit, hD, List.append_nil] at hd
            exact htw d hd
          have h1 : (rest ++ s).takeWhile (fun d => !isJsSpace d) = rest := by
            rw [takeWhile_all_append _ rest s hall]
            rcases s with _ | ⟨s0, s1⟩
            · simp
            · rw [takeWhile_cons_false _ s0 s1 (by simp [hs s0 (by simp)])]
              simp
          have h2 : (rest ++ s).dropWhile (fun d => !isJsSpace d) = s.dropWhile
              (fun d => !isJsSpace d) := dropWhile_all_append _ rest s hall
          have h3 : rest.takeWhile (fun d => !isJsSpace d) = rest := by
            conv_rhs => rw [← hsplit]
            rw [hD, List.append_nil]
          have h4 : s.dropWhile (fun d => !isJsSpace d) = s := by
            rcases s with _ | ⟨s0, s1⟩
            · rfl
            · exact dropWhile_cons_false _ s0 s1 (by simp [hs s0 (by simp)])
          rw [h1, h2, h3, h4, splitWs_nil, splitWs_all_space s hs]
        · have hsp : (!isJsSpace sp) = false := dropWhile_head_false _ rest sp b hD
          have hspT : isJsSpace sp = true := by simpa using hsp
          have hrestEq : rest = rest.takeWhile (fun d => !isJsSpace d) ++ sp :: b := by
            conv_lhs => rw [← hsplit]
            rw [hD]
          have h1 : (rest ++ s).takeWhile (fun d => !isJsSpace d) =
              rest.takeWhile (fun d => !isJsSpace d) := by
            conv_lhs => rw [hrestEq]
            rw [List.append_assoc, takeWhile_all_append _ _ _ htw,
              List.cons_append, takeWhile_cons_false _ sp _ hsp]
            simp
          have h2 : (rest ++ s).dropWhile (fun d => !isJsSpace d) = sp :: (b ++ s) := by
            conv_lhs => rw [hrestEq]
            rw [List.append_assoc, dropWhile_all_append _ _ _ htw,
              List.cons_append, dropWhile_cons_false _ sp _ hsp]
          rw [h1, h2, splitWs_cons_space sp (b ++ s) hspT, splitWs_cons_space sp b hspT]
          have hb : b.length ≤ m := by
            have hlen : rest.length =
                (rest.takeWhile (fun d => !isJsSpace d)).length + b.length + 1 := by
              conv_lhs => rw [hrestEq]
              simp [List.length_append]
              omega
            omega
          rw [ih b s hb hs]

theorem splitWs_dropWhile_space : ∀ t : List Char,
    splitWs (t.dropWhile isJsSpace) = splitWs t := by
  intro t
  induction t with
  | nil => rfl
  | cons c rest ih =>
    by_cases hc : isJsSpace c
    · rw [List.dropWhile_cons, if_pos (by simpa using hc), ih, splitWs_cons_space c rest hc]
    · rw [List.dropWhile_cons, if_neg (by simpa using hc)]

theorem splitWs_jsTrim (t : List Char) : splitWs (jsTrim t) = splitWs t := by
  have hu : splitWs (t.dropWhile isJsSpace) = splitWs t := splitWs_dropWhile_space t
  set u := t.dropWhile isJsSpace with hudef
  have hsplit := List.takeWhile_append_dropWhile isJsSpace u.reverse
  have hdecomp : u = (u.reverse.dropWhile isJsSpace).reverse ++
      (u.reverse.takeWhile isJsSpace).reverse := by
    conv_lhs => rw [← List.reverse_reverse u, ← hsplit]
    rw [List.reverse_append]
  have hallsp : ∀ c ∈ (u.reverse.takeWhile isJsSpace).reverse, isJsSpace c = true := by
    intro c hcalt
    exact List.mem_takeWhile_imp (List.mem_reverse.mp hcalt)
  rw [show jsTrim t = (u.reverse.dropWhile isJsSpace).reverse from rfl, ← hu]
  conv_rhs => rw [hdecomp]
  rw [splitWs_append_space ((u.reverse.dropWhile isJsSpace).reverse).length _ _ le_rfl hallsp]

theorem takeWhile_eq_self_of_all (p : Char → Bool) (l : List Char) (h : ∀ c ∈ l, p c = true) :
    l.takeWhile p = l := by
  conv_lhs => rw [show l = l ++ [] by simp]
  rw [takeWhile_all_append p l [] h]
  simp

theorem dropWhile_eq_nil_of_all (p : Char → Bool) (l : List Char) (h : ∀ c ∈ l, p c = true) :
    l.dropWhile p = [] := by
  conv_lhs => rw [show l = l ++ [] by simp]
  rw [dropWhile_all_append p l [] h]
  simp

theorem splitWs_single (w : List Char) (hne : w ≠ []) (hns : ∀ c ∈ w, isJsSpace c = false) :
    splitWs w = [w] := by
  rcases w with _ | ⟨c, w0⟩
  · exact absurd rfl hne
  rw [splitWs_cons_tok c w0 (hns c (by simp))]
  have hall : ∀ d ∈ w0, (!isJsSpace d) = true := by
    intro d hd
    simp [hns d (by simp [hd])]
  rw [takeWhile_eq_self_of_all _ w0 hall, dropWhile_eq_nil_of_all _ w0 hall, splitWs_nil]

theorem splitWs_intercalate : ∀ ts : List (List Char),
    (∀ w ∈ ts, w ≠ [] ∧ ∀ c ∈ w, isJsSpace c = false) →
    splitWs (List.intercalate [' '] ts) = ts := by
  intro ts
  induction ts with
  | nil => intro _; rfl
  | cons w ts0 ih =>
    intro hprops
    rcases ts0 with _ | ⟨w2, ts1⟩
    · have hw := hprops w (by simp)
      rw [show List.intercalate [' '] [w] = w by simp [List.intercalate]]
      exact splitWs_single w hw.1 hw.2
    · have hw := hprops w (by simp)
      have hstep : List.intercalate [' '] (w :: w2 :: ts1) =
          w ++ ' ' :: List.intercalate [' '] (w2 :: ts1) := by
        simp [List.intercalate, List.intersperse]
      rw [hstep]
      rcases hwc : w with _ | ⟨c, w0⟩
      · exact absurd hwc hw.1
      · have hns : ∀ d ∈ c :: w0, isJsSpace d = false := by
          rw [← hwc]
          exact hw.2
        have hall : ∀ d ∈ w0, (!isJsSpace d) = true := by
          intro d hd
          simp [hns d (by simp [hd])]
        rw [List.cons_append, splitWs_cons_tok c _ (hns c (by simp)),
          takeWhile_all_append _ w0 _ hall,
          takeWhile_cons_false _ ' ' _ (by decide),
          dropWhile_all_append _ w0 _ hall,
          dropWhile_cons_false _ ' ' _ (by decide),
          splitWs_cons_space ' ' _ (by decide), List.append_nil]
        rw [ih (fun v hv => hprops v (by simp [hv]))]

/-- C4 (amended): with `w` the whitespace-delimited token count of the
input, if `w > L` the truncation stage outputs exactly the first `L`
tokens rejoined with single spaces (and so has exactly `L` tokens); if
`w ≤ L` the stage outputs the input trimmed of leading and trailing
whitespace (interior line breaks preserved) — the source trims before
the stage, so inputs with leading or trailing whitespace do not pass
through literally unchanged. -/
theorem c4_word_limit_truncation (t : String) (L : Nat) :
    (L < (splitWs t.data).length →
      applyWordLimit t.data L = List.intercalate [' '] ((splitWs t.data).take L) ∧
      (splitWs (applyWordLimit t.data L)).length = L) ∧
    ((splitWs t.data).length ≤ L → applyWordLimit t.data L = jsTrim t.data) := by
  have htrim := splitWs_jsTrim t.data
  constructor
  · intro hgt
    have happ : applyWordLimit t.data L =
        List.intercalate [' '] ((splitWs t.data).take L) := by
      simp only [applyWordLimit, htrim]
      rw [if_pos hgt]
    refine ⟨happ, ?_⟩
    rw [happ]
    have hprops : ∀ w ∈ (splitWs t.data).take L, w ≠ [] ∧ ∀ c ∈ w, isJsSpace c = false :=
      fun w hw => splitWs_tokens t.data.length t.data le_rfl w (List.take_subset L _ hw)
    rw [splitWs_intercalate _ hprops, List.length_take]
    omega
  · intro hle
    simp only [applyWordLimit, htrim]
    rw [if_neg (by omega)]

/-- Counterexample to C4 as stated: the input " a" has one token, below
the limit 5, yet the stage output is the trimmed "a", not the original
text — original leading whitespace is not preserved. -/
theorem c4_counterexample :
    (splitWs " a".data).length ≤ 5 ∧ applyWordLimit " a".data 5 ≠ " a".data := by
  constructor
  · decide
  · decide

/-- Witness for C4 at concrete inputs on both branches. -/
theorem c4_witness :
    (applyWordLimit "a b c d e f".data 5 =
        List.intercalate [' '] ((splitWs "a b c d e f".data).take 5) ∧
      (splitWs (applyWordLimit "a b c d e f".data 5)).length = 5) ∧
    applyWordLimit "x y".data 5 = jsTrim "x y".data :=
  ⟨(c4_word_limit_truncation "a b c d e f" 5).1 (by decide),
   (c4_word_limit_truncation "x y" 5).2 (by decide)⟩

/-- C5: on every successful formatting request the `wordCount` field
equals the whitespace-token count of the returned `content` string (the
final output including the banner), by construction of the result. -/
theorem c5_wordCount_of_content (t : String) (fmt : JournalFormat) (doc : FormattedDocument)
    (h : formatDocument t fmt = some doc) :
    doc.wordCount = (wordTokens doc.content).length := by
  simp only [formatDocument] at h
  split at h
  · exact absurd h (by simp)
  · simp only [Option.some.injEq] at h
    subst h
    rfl

/-- Witness for C5 at a concrete request. -/
theorem c5_witness :
    (formatDocument "Hello world" testFormat).map (fun d => d.wordCount) =
      (formatDocument "Hello world" testFormat).map
        (fun d => (wordTokens d.content).length) := by
  cases h : formatDocument "Hello world" testFormat with
  | none =>
    have hs : (formatDocument "Hello world" testFormat).isSome = true := by decide
    rw [h] at hs
    exact absurd hs (by decide)
  | some d => simp [c5_wordCount_of_content "Hello world" testFormat d h]

/-- C9: the banner first line (the header without its newline) has
exactly as many characters as the `=` count of its underline. -/
theorem c9_banner_underline (fmt : JournalFormat) :
    ((bannerHeader fmt).dropLast).length = (bannerHeaderLine fmt).count '=' := by
  unfold bannerHeader bannerHeaderLine
  rw [List.count_append, List.count_replicate_self]
  have h0 : ("\n\n".data : List Char).count '=' = 0 := by decide
  rw [h0]
  simp [List.length_dropLast, List.length_append, List.length_map, bannerHeader]

theorem formatDocument_some_imp (t : String) (f : JournalFormat) (d : FormattedDocument)
    (h : formatDocument t f = some d) : (jsTrim t.data).isEmpty = false := by
  by_contra hc
  have hemp : (jsTrim t.data).isEmpty = true := by simpa using hc
  simp [formatDocument, hemp] at h

theorem formatDocument_none_imp (t : String) (f : JournalFormat)
    (h : formatDocument t f = none) : (jsTrim t.data).isEmpty = true := by
  by_contra hc
  have hne : (jsTrim t.data).isEmpty = false := by simpa using hc
  simp [formatDocument, hne] at h

theorem formatDocument_of_empty (t : String) (f : JournalFormat)
    (h : (jsTrim t.data).isEmpty = true) : formatDocument t f = none := by
  simp [formatDocument, h]

theorem reachable_empty_no_doc : ∀ st : AppState, Reachable st →
    (jsTrim st.manuscriptText.data).isEmpty = true → st.formattedDocument = none := by
  intro st h
  induction h with
  | init => intro _; rfl
  | step ev hst ih =>
    rename_i st0
    intro hemp
    cases ev with
    | setText s => rfl
    | setDraft d => exact ih hemp
    | formatClick =>
      cases hfd : formatDocument st0.manuscriptText st0.selectedFormat with
      | none =>
        have heq : applyEvent st0 .formatClick =
            { st0 with error := some "Please enter your manuscript text" } := by
          simp [applyEvent, hfd]
        rw [heq] at hemp ⊢
        exact ih hemp
      | some d =>
        have hne := formatDocument_some_imp st0.manuscriptText st0.selectedFormat d hfd
        have heq : applyEvent st0 .formatClick =
            { st0 with formattedDocument := some d, error := none } := by
          simp [applyEvent, hfd]
        rw [heq] at hemp
        rw [show ({ st0 with formattedDocument := some d, error := none } :
          AppState).manuscriptText = st0.manuscriptText from rfl] at hemp
        rw [hemp] at hne
        exact absurd hne (by simp)
    | saveClick now =>
      by_cases hmiss : draftNameMissing st0.customFormat
      · have heq : applyEvent st0 (.saveClick now) =
            { st0 with error := some "Please enter a journal name" } := by
          simp [applyEvent, saveCustomFormat, hmiss]
        rw [heq] at hemp ⊢
        exact ih hemp
      · have hmiss2 : draftNameMissing st0.customFormat = false := by simpa using hmiss
        simp only [applyEvent, saveCustomFormat, hmiss2, Bool.false_eq_true, if_false] at hemp ⊢
        exact ih hemp

/-- C8: from any reachable component state, clicking Format fails (shows
an error) exactly when the manuscript text trims to empty, and on that
failure no formatted result remains stored alongside the error. -/
theorem c8_format_failure_atomic (st : AppState) (h : Reachable st) :
    ((applyEvent st .formatClick).error ≠ none ↔
      (jsTrim st.manuscriptText.data).isEmpty = true) ∧
    ((jsTrim st.manuscriptText.data).isEmpty = true →
      (applyEvent st .formatClick).formattedDocument = none ∧
      (applyEvent st .formatClick).error = some "Please enter your manuscript text") := by
  constructor
  · cases hfd : formatDocument st.manuscriptText st.selectedFormat with
    | none =>
      have hemp := formatDocument_none_imp st.manuscriptText st.selectedFormat hfd
      simp [applyEvent, hfd, hemp]
    | some d =>
      have hne := formatDocument_some_imp st.manuscriptText st.selectedFormat d hfd
      simp [applyEvent, hfd, hne]
  · intro hemp
    have hfd := formatDocument_of_empty st.manuscriptText st.selectedFormat hemp
    have hdoc := reachable_empty_no_doc st h hemp
    constructor
    · simp [applyEvent, hfd, hdoc]
    · simp [applyEvent, hfd]

/-- Witness for C8 at the initial state (empty manuscript). -/
theorem c8_witness :
    (((applyEvent initialState .formatClick).error ≠ none ↔
      (jsTrim initialState.manuscriptText.data).isEmpty = true)) ∧
    ((applyEvent initialState .formatClick).formattedDocument = none ∧
      (applyEvent initialState .formatClick).error =
        some "Please enter your manuscript text") :=
  ⟨(c8_format_failure_atomic initialState Reachable.init).1,
   (c8_format_failure_atomic initialState Reachable.init).2 (by decide)⟩

/-- Counterexample to C6 as stated: a draft whose name is a single space
passes the falsy-only check, so registration succeeds and the format is
added — whitespace-only names are not rejected. -/
theorem c6_counterexample :
    (saveCustomFormat { initialState with customFormat := { initialDraft with name := some " " } } 5).error = none ∧
    (saveCustomFormat { initialState with customFormat := { initialDraft with name := some " " } } 5).journalFormats.length =
      initialState.journalFormats.length + 1 := by
  constructor
  · decide
  · decide

/-- C6 (amended): registration fails with the validation error (and adds
nothing) exactly when the draft name is absent or the empty string; any
other name — including whitespace-only names — is accepted and the
format is appended. -/
theorem c6_name_validation (st : AppState) (now : Nat) :
    (((saveCustomFormat st now).error = some "Please enter a journal name" ∧
      (saveCustomFormat st now).journalFormats = st.journalFormats) ↔
    (st.customFormat.name = none ∨ st.customFormat.name = some "")) ∧
    (¬(st.customFormat.name = none ∨ st.customFormat.name = some "") →
      (saveCustomFormat st now).error = none ∧
      (saveCustomFormat st now).journalFormats.length = st.journalFormats.length + 1) := by
  have hchar : draftNameMissing st.customFormat = true ↔
      (st.customFormat.name = none ∨ st.customFormat.name = some "") := by
    unfold draftNameMissing
    cases hn : st.customFormat.name with
    | none => simp
    | some s => simp [beq_iff_eq]
  by_cases hm : draftNameMissing st.customFormat
  · constructor
    · simp only [saveCustomFormat, hm, if_pos]
      simp [hchar.mp hm]
    · intro hc
      exact absurd (hchar.mp hm) hc
  · have hm2 : draftNameMissing st.customFormat = false := by simpa using hm
    constructor
    · simp only [saveCustomFormat, hm2, Bool.false_eq_true, if_false]
      constructor
      · intro hcon
        exact absurd hcon.1 (by simp)
      · intro hc
        exact absurd (hchar.mpr hc) (by simp [hm2])
    · intro _
      simp [saveCustomFormat, hm2]

theorem jsNumToStringAux_zero (fu : Nat) : jsNumToStringAux fu 0 = [] := by
  cases fu <;> simp [jsNumToStringAux]

theorem jsNumToStringAux_ne_nil (fu n : Nat) (hn : n ≠ 0) (hfu : n ≤ fu) :
    jsNumToStringAux fu n ≠ [] := by
  cases fu with
  | zero => omega
  | succ k =>
    rw [jsNumToStringAux, if_neg hn]
    simp

theorem digitChar_inj_lt : ∀ x < 10, ∀ y < 10, Nat.digitChar x = Nat.digitChar y → x = y := by
  decide

theorem jsNumToStringAux_inj : ∀ fu fu' m m', m ≤ fu → m' ≤ fu' → m ≠ 0 → m' ≠ 0 →
    jsNumToStringAux fu m = jsNumToStringAux fu' m' → m = m' := by
  intro fu
  induction fu with
  | zero => omega
  | succ k ih =>
    intro fu' m m' hm hm' hm0 hm'0 heq
    cases fu' with
    | zero => omega
    | succ k' =>
      rw [jsNumToStringAux, if_neg hm0, jsNumToStringAux, if_neg hm'0] at heq
      have hrev := congrArg List.reverse heq
      simp only [List.reverse_append, List.reverse_cons, List.reverse_nil, List.nil_append,
        List.singleton_append] at hrev
      have hd : m % 10 = m' % 10 := by
        have h1 : Nat.digitChar (m % 10) = Nat.digitChar (m' % 10) := by
          injection hrev
        exact digitChar_inj_lt (m % 10) (Nat.mod_lt m (by omega)) (m' % 10)
          (Nat.mod_lt m' (by omega)) h1
      have htl : jsNumToStringAux k (m / 10) = jsNumToStringAux k' (m' / 10) := by
        have h2 : (jsNumToStringAux k (m / 10)).reverse =
            (jsNumToStringAux k' (m' / 10)).reverse := by
          injection hrev
        have := congrArg List.reverse h2
        simpa using this
      by_cases hz : m / 10 = 0 <;> by_cases hz' : m' / 10 = 0
      · omega
      · rw [hz, jsNumToStringAux_zero] at htl
        exact absurd htl.symm (jsNumToStringAux_ne_nil k' (m' / 10) hz' (by omega))
      · rw [hz', jsNumToStringAux_zero] at htl
        exact absurd htl (jsNumToStringAux_ne_nil k (m / 10) hz (by omega))
      · have := ih k' (m / 10) (m' / 10) (by omega) (by omega) hz hz' htl
        omega

theorem jsNumToString_inj (m m' : Nat) (h : jsNumToString m = jsNumToString m') : m = m' := by
  have hd : (jsNumToString m).data = (jsNumToString m').data := by rw [h]
  simp only [jsNumToString] at hd
  by_cases h0 : m = 0 <;> by_cases h0' : m' = 0
  · omega
  · rw [if_pos h0, if_neg h0'] at hd
    rw [show m' + 1 = m' + 1 from rfl, jsNumToStringAux, if_neg h0'] at hd
    have hrev := congrArg List.reverse hd
    simp only [List.reverse_append, List.reverse_cons, List.reverse_nil, List.nil_append,
      List.singleton_append] at hrev
    have htl : ([] : List Char) = (jsNumToStringAux m' (m' / 10)).reverse := by
      injection hrev
    have hnil : jsNumToStringAux m' (m' / 10) = [] := by
      have := congrArg List.reverse htl
      simpa using this
    by_cases hz : m' / 10 = 0
    · have hm10 : m' < 10 := by omega
      have hdc : Nat.digitChar (m' % 10) = '0' := by
        injection hrev with h1 h2
        exact h1.symm
      have : m' % 10 = 0 := by
        have h00 : Nat.digitChar 0 = '0' := by decide
        exact digitChar_inj_lt (m' % 10) (Nat.mod_lt m' (by omega)) 0 (by omega)
          (h00 ▸ hdc)
      omega
    · exact absurd hnil (jsNumToStringAux_ne_nil m' (m' / 10) hz (Nat.div_le_self m' 10))
  · rw [if_neg h0, if_pos h0'] at hd
    rw [show m + 1 = m + 1 from rfl, jsNumToStringAux, if_neg h0] at hd
    have hrev := congrArg List.reverse hd
    simp only [List.reverse_append, List.reverse_cons, List.reverse_nil, List.nil_append,
      List.singleton_append] at hrev
    have htl : (jsNumToStringAux m (m / 10)).reverse = ([] : List Char) := by
      injection hrev
    have hnil : jsNumToStringAux m (m / 10) = [] := by
      have := congrArg List.reverse htl
      simpa using this
    by_cases hz : m / 10 = 0
    · have hdc : Nat.digitChar (m % 10) = '0' := by injection hrev
      have : m % 10 = 0 := by
        have h00 : Nat.digitChar 0 = '0' := by decide
        exact digitChar_inj_lt (m % 10) (Nat.mod_lt m (by omega)) 0 (by omega)
          (h00 ▸ hdc)
      omega
    · exact absurd hnil (jsNumToStringAux_ne_nil m (m / 10) hz (Nat.div_le_self m 10))
  · rw [if_neg h0, if_neg h0'] at hd
    exact jsNumToStringAux_inj (m + 1) (m' + 1) m m' (by omega) (by omega) h0 h0' hd

theorem mkCustomId_inj (t1 t2 : Nat) (h : t1 ≠ t2) : mkCustomId t1 ≠ mkCustomId t2 := by
  intro hh
  apply h
  apply jsNumToString_inj
  have hdata := congrArg String.data hh
  simp only [mkCustomId, String.data_append] at hdata
  have hcancel := List.append_cancel_left hdata
  exact String.ext hcancel

theorem jsNumToString_digits (n : Nat) : ∀ c ∈ (jsNumToString n).data, c.isDigit = true := by
  have haux : ∀ fu m, ∀ c ∈ jsNumToStringAux fu m, c.isDigit = true := by
    intro fu
    induction fu with
    | zero => intro m c hc; simp [jsNumToStringAux] at hc
    | succ k ih =>
      intro m c hc
      by_cases hm : m = 0
      · rw [jsNumToStringAux, if_pos hm] at hc
        simp at hc
      · rw [jsNumToStringAux, if_neg hm] at hc
        rcases List.mem_append.mp hc with h | h
        · exact ih (m / 10) c h
        · rw [List.mem_singleton.mp h]
          have : ∀ x < 10, (Nat.digitChar x).isDigit = true := by decide
          exact this (m % 10) (Nat.mod_lt m (by omega))
  intro c hc
  simp only [jsNumToString] at hc
  by_cases hn : n = 0
  · rw [if_pos hn] at hc
    rw [List.mem_singleton.mp hc]
    decide
  · rw [if_neg hn] at hc
    exact haux (n + 1) n c hc

theorem mkCustomId_not_builtin (t : Nat) :
    mkCustomId t ∉ DEFAULT_JOURNAL_FORMATS.map (fun f => f.id) := by
  intro hmem
  have hdig := jsNumToString_digits t
  simp only [DEFAULT_JOURNAL_FORMATS, List.map_cons, List.map_nil, List.mem_cons,
    List.not_mem_nil, or_false] at hmem
  rcases hmem with h | h | h | h | h <;>
    have hdata := congrArg String.data h <;>
    simp only [mkCustomId, String.data_append] at hdata
  · simp at hdata
  · simp at hdata
  · simp at hdata
  · have hX : (jsNumToString t).data = "modern".data := by
      have := List.append_cancel_left (show "custom_".data ++ (jsNumToString t).data =
        "custom_".data ++ "modern".data from by simpa using hdata)
      exact this
    have hm : Char.isDigit 'm' = true := hdig 'm' (by rw [hX]; decide)
    exact absurd hm (by decide)
  · have hX : (jsNumToString t).data = "classic".data := by
      have := List.append_cancel_left (show "custom_".data ++ (jsNumToString t).data =
        "custom_".data ++ "classic".data from by simpa using hdata)
      exact this
    have hm : Char.isDigit 'c' = true := hdig 'c' (by rw [hX]; decide)
    exact absurd hm (by decide)

/-- C7 (amended): two successful registrations whose `Date.now()`
timestamps differ receive distinct ids, and a newly assigned id never
collides with a built-in id.  (Registrations within the same millisecond
do collide — see the counterexample.) -/
theorem c7_fresh_ids :
    (∀ (s1 s2 : AppState) (t1 t2 : Nat), t1 ≠ t2 →
      draftNameMissing s1.customFormat = false →
      draftNameMissing s2.customFormat = false →
      (saveCustomFormat s1 t1).selectedFormat.id ≠
        (saveCustomFormat s2 t2).selectedFormat.id) ∧
    (∀ (s : AppState) (t : Nat), draftNameMissing s.customFormat = false →
      (saveCustomFormat s t).selectedFormat.id ∉
        DEFAULT_JOURNAL_FORMATS.map (fun f => f.id)) := by
  constructor
  · intro s1 s2 t1 t2 ht h1 h2
    have e1 : (saveCustomFormat s1 t1).selectedFormat.id = mkCustomId t1 := by
      simp [saveCustomFormat, h1]
    have e2 : (saveCustomFormat s2 t2).selectedFormat.id = mkCustomId t2 := by
      simp [saveCustomFormat, h2]
    rw [e1, e2]
    exact mkCustomId_inj t1 t2 ht
  · intro s t hs
    have e : (saveCustomFormat s t).selectedFormat.id = mkCustomId t := by
      simp [saveCustomFormat, hs]
    rw [e]
    exact mkCustomId_not_builtin t

/-- Witness for C7 (amended) at concrete states and timestamps. -/
theorem c7_witness :
    (saveCustomFormat { initialState with customFormat := { initialDraft with name := some "A" } } 1).selectedFormat.id ≠
      (saveCustomFormat { initialState with customFormat := { initialDraft with name := some "B" } } 2).selectedFormat.id ∧
    (saveCustomFormat { initialState with customFormat := { initialDraft with name := some "A" } } 1).selectedFormat.id ∉
      DEFAULT_JOURNAL_FORMATS.map (fun f => f.id) :=
  ⟨c7_fresh_ids.1 _ _ 1 2 (by decide) (by decide) (by decide),
   c7_fresh_ids.2 _ 1 (by decide)⟩

/-- Counterexample to C7 as stated: two registrations in the same
session at the same `Date.now()` millisecond (here 1000) both succeed —
seven formats total, five built-ins plus two customs — yet the id list
is no longer duplicate-free: both new formats get id `custom_1000`. -/
theorem c7_counterexample :
    ((saveCustomFormat { (saveCustomFormat { initialState with customFormat := { initialDraft with name := some "Journal A" } } 1000) with customFormat := { initialDraft with name := some "Journal B" } } 1000).journalFormats.length = 7) ∧
    ¬ ((saveCustomFormat { (saveCustomFormat { initialState with customFormat := { initialDraft with name := some "Journal A" } } 1000) with customFormat := { initialDraft with name := some "Journal B" } } 1000).journalFormats.map (fun f => f.id)).Nodup := by
  constructor
  · decide
  · decide

/-- C2 (code bug): `formatTitles` assigns the rewritten
`TITLE: <first line uppercased>` into a local `lines` array that is never
joined back, so the stage output keeps the original first line and no
`TITLE:` line ever reaches the final content. -/
theorem c2_title_rewrite_dropped :
    formatTitles "Hello world\nMore text".data testFormat = "Hello world\nMore text".data ∧
    (formatDocument "Hello world\nMore text" testFormat).map
      (fun d => listContains "TITLE:".data d.content.data) = some false := by
  constructor
  · decide
  · decide

/-- Counterexample to C1 as stated: in the actual output of the
end-to-end example no line `ABSTRACT` is immediately followed by a
non-empty line consisting only of `=` characters (the underline ends up
blank-line-separated and indented). -/
theorem c1_counterexample :
    (formatDocument c1Input testFormat).map
      (fun d => hasHeaderUnderlinePair d.content.data "ABSTRACT".data) = some false := by
  decide

/-- C1 (amended): the end-to-end example succeeds and its content
contains the banner line `FORMATTED FOR: TEST JOURNAL`, the
specification line `- Reference Style: IEEE`, keeps `[1]`, rewrites
`(2)` to `[2]` (no `(2)` remains), and contains the `ABSTRACT` header
line followed by a blank line and then the indented underline
`    ========` (rather than an immediately adjacent bare underline). -/
theorem c1_end_to_end :
    (formatDocument c1Input testFormat).map (fun d =>
      listContains "FORMATTED FOR: TEST JOURNAL\n".data d.content.data &&
      listContains "- Reference Style: IEEE\n".data d.content.data &&
      listContains "[1]".data d.content.data &&
      listContains "[2]".data d.content.data &&
      !listContains "(2)".data d.content.data &&
      listContains "\nABSTRACT\n\n    ========\n".data d.content.data) = some true := by
  decide

/-- Witness for C6 (amended) at concrete registry states. -/
theorem c6_witness :
    (((saveCustomFormat initialState 3).error = some "Please enter a journal name" ∧
      (saveCustomFormat initialState 3).journalFormats = initialState.journalFormats) ↔
      (initialState.customFormat.name = none ∨ initialState.customFormat.name = some "")) ∧
    ((saveCustomFormat { initialState with customFormat := { initialDraft with name := some "My Journal" } } 3).error = none ∧
     (saveCustomFormat { initialState with customFormat := { initialDraft with name := some "My Journal" } } 3).journalFormats.length =
       initialState.journalFormats.length + 1) :=
  ⟨(c6_name_validation initialState 3).1,
   (c6_name_validation
     { initialState with customFormat := { initialDraft with name := some "My Journal" } } 3).2
     (by decide)⟩
